import Mathlib

/-!
Verification of the framed-connection / secure-channel / session layer of the
simple-ftp-app repository.  Python sources are embedded shallowly: byte strings
become `List Nat`, dictionaries become insertion-ordered association lists,
blocking queues become explicit event values, and the two `time.time()` calls
inside the body-reassembly step become explicit rational clock readings supplied
by an oracle stream.
-/

namespace FtpApp

/-! ## Framing codec (src/connection.py) -/

/-- `Connection.packet_header_length` (src/connection.py line 32). -/
def packetHeaderLength : Nat := 32

/-- `PacketHeader` (src/connection.py lines 19-22); the timestamp is the float
parsed from the second header field, in milliseconds. -/
structure PacketHeader where
  message_length : Nat
  timestamp : ℚ
  deriving DecidableEq

/-- The codec-relevant state of a `Connection` (src/connection.py lines 25-36).
`input_buffer` collects the messages enqueued by `_read_body`, oldest first. -/
structure Connection where
  network_buffer : List Nat := []
  message_buffer : List Nat := []
  message_header : Option PacketHeader := none
  message_bytes_remaining : Nat := 0
  input_buffer : List (List Nat) := []
  deriving DecidableEq

/-- A freshly created connection (src/connection.py line 232). -/
def emptyConnection : Connection := {}

/-- Decimal digits, least significant first, with explicit fuel (the first
argument); `fuel ≥ n` always suffices. -/
def natDigitsLEGo : Nat → Nat → List Nat
  | 0, _ => []
  | _ + 1, 0 => []
  | fuel + 1, n + 1 => ((n + 1) % 10) :: natDigitsLEGo fuel ((n + 1) / 10)

/-- Decimal digits of `n`, least significant first. -/
def natDigitsLE (n : Nat) : List Nat := natDigitsLEGo n n

theorem natDigitsLEGo_fuel : ∀ f1 f2 n, n ≤ f1 → n ≤ f2 →
    natDigitsLEGo f1 n = natDigitsLEGo f2 n := by
  intro f1
  induction f1 with
  | zero =>
    intro f2 n h1 h2
    have hn : n = 0 := by omega
    subst hn
    cases f2 <;> rfl
  | succ a IH =>
    intro f2 n h1 h2
    cases n with
    | zero => cases f2 <;> rfl
    | succ k =>
      cases f2 with
      | zero => omega
      | succ b =>
        rw [natDigitsLEGo, natDigitsLEGo]
        have hdiv : (k + 1) / 10 < k + 1 := Nat.div_lt_self (Nat.succ_pos k) (by decide)
        rw [IH b ((k + 1) / 10) (by omega) (by omega)]

theorem natDigitsLE_succ (n : Nat) :
    natDigitsLE (n + 1) = ((n + 1) % 10) :: natDigitsLE ((n + 1) / 10) := by
  unfold natDigitsLE
  rw [natDigitsLEGo]
  have hdiv : (n + 1) / 10 < n + 1 := Nat.div_lt_self (Nat.succ_pos n) (by decide)
  rw [natDigitsLEGo_fuel n ((n + 1) / 10) ((n + 1) / 10) (by omega) (by omega)]

/-- ASCII bytes of Python `str(n)` for a natural number. -/
def natToAscii (n : Nat) : List Nat :=
  if n = 0 then [48] else ((natDigitsLE n).reverse.map (· + 48))

/-- Python `int(s)` on a run of ASCII decimal digits (leading zeros allowed). -/
def parseNatAscii (s : List Nat) : Nat :=
  s.foldl (fun a b => a * 10 + (b - 48)) 0

/-- Python `float(s)` on bytes of the shape `digits.digits` (the millisecond
timestamp rendered by the write path). -/
def parseFloatAscii (s : List Nat) : ℚ :=
  let ip := s.takeWhile (fun b => b ≠ 46)
  let fp := (s.dropWhile (fun b => b ≠ 46)).drop 1
  (parseNatAscii ip : ℚ) + (parseNatAscii fp : ℚ) / ((10 : ℚ) ^ fp.length)

/-- Python `bytes.split(sep)` for a single-byte separator: splits on every
occurrence, keeping empty segments. -/
def splitBytes (sep : Nat) : List Nat → List (List Nat)
  | [] => [[]]
  | b :: rest =>
    match splitBytes sep rest with
    | [] => [[]]
    | p :: ps => if b = sep then [] :: p :: ps else (b :: p) :: ps

/-- Python `str.zfill(width)` on a digit string (pads with ASCII `0` on the left). -/
def zfill (width : Nat) (s : List Nat) : List Nat :=
  List.replicate (width - s.length) 48 ++ s

/-- `ConnectionHandler._reset_read` (src/connection.py lines 131-135). -/
def resetRead (c : Connection) : Connection :=
  { c with message_header := none, message_bytes_remaining := 0, message_buffer := [] }

/-- `ConnectionHandler._read_header` (src/connection.py lines 137-154).
Returns the updated connection and the `buffer_empty` flag. -/
def readHeader (c : Connection) : Connection × Bool :=
  if c.network_buffer.length < packetHeaderLength then (c, true)
  else
    let header := c.network_buffer.take packetHeaderLength
    let parts := splitBytes 32 header
    let len := parseNatAscii (parts.getD 0 [])
    let ts := parseFloatAscii (parts.getD 1 [])
    ({ c with
        message_bytes_remaining := len
        message_header := some ⟨len, ts⟩
        network_buffer := c.network_buffer.drop packetHeaderLength }, false)

/-- `ConnectionHandler._read_body` (src/connection.py lines 156-190).
`t1` and `t2` are the two consecutive `time.time() * 1000` readings taken on
lines 170-171 (`current_time` and the minuend of `time_diff`).  The final
delivery branch returns `None` in Python, which is falsy, hence `false`. -/
def readBody (t1 t2 : ℚ) (c : Connection) : Connection × Bool :=
  if c.network_buffer.length < c.message_bytes_remaining then
    ({ c with
        message_buffer := c.message_buffer ++ c.network_buffer
        message_bytes_remaining := c.message_bytes_remaining - c.network_buffer.length
        network_buffer := [] }, true)
  else if c.message_header = none then (resetRead c, true)
  else if t2 - t1 < 0 ∨ t2 - t1 > 500 then (resetRead c, true)
  else
    let body := c.network_buffer.take c.message_bytes_remaining
    (resetRead
      { c with
          input_buffer := c.input_buffer ++ [c.message_buffer ++ body]
          network_buffer := c.network_buffer.drop c.message_bytes_remaining }, false)

/-- One iteration of the `while not buffer_empty` loop in
`ConnectionHandler.read` (src/connection.py lines 199-204). -/
def codecStep (t1 t2 : ℚ) (c : Connection) : Connection × Bool :=
  if c.message_header.isSome then readBody t1 t2 c else readHeader c

/-- Termination measure for the reassembly loop: every continuing iteration
either consumes 32 header bytes (gaining header state) or consumes the body
bytes and clears the header state. -/
def codecMeasure (c : Connection) : Nat :=
  2 * c.network_buffer.length + (if c.message_header.isSome then 1 else 0)

/-- The reassembly loop of `ConnectionHandler.read`, with explicit fuel (the
fuel is always chosen large enough; see `codecLoopF_fuel_irrel`).  `dts` is the
oracle of clock readings: iteration `n` observes the pair `dts n`.  Returns the
final connection and the next unused oracle index. -/
def codecLoopF : Nat → (Nat → ℚ × ℚ) → Nat → Connection → Connection × Nat
  | 0, _, n, c => (c, n)
  | fuel + 1, dts, n, c =>
    match codecStep (dts n).1 (dts n).2 c with
    | (c2, true) => (c2, n + 1)
    | (c2, false) => codecLoopF fuel dts (n + 1) c2

/-- Run the reassembly loop to quiescence with a benign clock (both readings
equal, so `time_diff = 0` exactly as two instantaneous reads produce). -/
def codecRun (c : Connection) : Connection :=
  (codecLoopF (codecMeasure c + 1) (fun _ => (0, 0)) 0 c).1

/-- `ConnectionHandler.read` on one received chunk (src/connection.py lines
192-206): append the bytes to the network buffer and run the loop. -/
def readChunk (dts : Nat → ℚ × ℚ) (n : Nat) (c : Connection) (data : List Nat) :
    Connection × Nat :=
  let c2 : Connection := { c with network_buffer := c.network_buffer ++ data }
  codecLoopF (codecMeasure c2 + 1) dts n c2

/-- Deliver a sequence of chunks in order to the codec. -/
def feedChunks (dts : Nat → ℚ × ℚ) : Nat → Connection → List (List Nat) → Connection
  | _, c, [] => c
  | n, c, ch :: rest =>
    let r := readChunk dts n c ch
    feedChunks dts r.2 r.1 rest

/-- `readChunk` with the benign clock, as a plain state transformer. -/
def runChunk (c : Connection) (data : List Nat) : Connection :=
  codecRun { c with network_buffer := c.network_buffer ++ data }

/-! ## Write path (src/connection.py lines 208-218) -/

/-- The content of the header string `f"{len(message)} {time.time() * 1000}"`,
with `tsBytes` the ASCII rendering of the timestamp float. -/
def headerCore (len : Nat) (tsBytes : List Nat) : List Nat :=
  natToAscii len ++ [32] ++ tsBytes

/-- `ConnectionHandler.write` applied to one dequeued message: `none` means the
message was dropped because the rendered header exceeded the fixed width. -/
def writeFrame (tsBytes : List Nat) (message : List Nat) : Option (List Nat) :=
  let header := zfill packetHeaderLength (headerCore message.length tsBytes)
  if packetHeaderLength < header.length then none
  else some (header ++ message)

/-! ## Parsing lemmas for the header encoding -/

theorem natDigitsLE_lt_ten (n : Nat) : ∀ d ∈ natDigitsLE n, d < 10 := by
  induction n using Nat.strong_induction_on with
  | _ n IH =>
    cases n with
    | zero => intro d hd; simp [natDigitsLE, natDigitsLEGo] at hd
    | succ m =>
      intro d hd
      rw [natDigitsLE_succ] at hd
      rcases List.mem_cons.mp hd with h | h
      · subst h; exact Nat.mod_lt _ (by decide)
      · exact IH ((m + 1) / 10) (Nat.div_lt_self (Nat.succ_pos m) (by decide)) d h

theorem natToAscii_isDigit (n : Nat) : ∀ b ∈ natToAscii n, 48 ≤ b ∧ b ≤ 57 := by
  intro b hb
  unfold natToAscii at hb
  split at hb
  · have hb48 : b = 48 := by simpa using hb
    omega
  · rcases List.mem_map.mp hb with ⟨d, hd, rfl⟩
    have hd10 := natDigitsLE_lt_ten n d (List.mem_reverse.mp hd)
    show 48 ≤ d + 48 ∧ d + 48 ≤ 57
    omega

theorem parseNatAscii_cons (b : Nat) (s : List Nat) :
    parseNatAscii (b :: s) = List.foldl (fun a b => a * 10 + (b - 48)) (b - 48) s := by
  simp [parseNatAscii]

theorem parseNatAscii_zeros (k : Nat) (s : List Nat) :
    parseNatAscii (List.replicate k 48 ++ s) = parseNatAscii s := by
  induction k with
  | zero => simp
  | succ m IH => simpa [List.replicate_succ, parseNatAscii] using IH

theorem parse_natDigits (n : Nat) : ∀ acc : Nat,
    List.foldl (fun a b => a * 10 + (b - 48)) acc ((natDigitsLE n).reverse.map (· + 48)) =
      acc * 10 ^ (natDigitsLE n).length + n := by
  induction n using Nat.strong_induction_on with
  | _ n IH =>
    cases n with
    | zero => intro acc; simp [natDigitsLE, natDigitsLEGo]
    | succ m =>
      intro acc
      rw [natDigitsLE_succ]
      have hrec := IH ((m + 1) / 10) (Nat.div_lt_self (Nat.succ_pos m) (by decide))
      simp only [List.reverse_cons, List.map_append, List.foldl_append, hrec,
        List.map_cons, List.map_nil, List.foldl_cons, List.foldl_nil,
        List.length_cons]
      have hmod : (m + 1) % 10 + 48 - 48 = (m + 1) % 10 := by omega
      rw [hmod, pow_succ]
      have := Nat.div_add_mod (m + 1) 10
      ring_nf
      omega

theorem parseNatAscii_natToAscii (n : Nat) : parseNatAscii (natToAscii n) = n := by
  unfold natToAscii
  split
  · simp [parseNatAscii]; omega
  · rw [parseNatAscii, parse_natDigits]; simp

theorem splitBytes_ne_nil (sep : Nat) (s : List Nat) : splitBytes sep s ≠ [] := by
  cases s with
  | nil => simp [splitBytes]
  | cons b rest =>
    rw [splitBytes]
    rcases h : splitBytes sep rest with _ | ⟨p, ps⟩
    · simp
    · by_cases hb : b = sep <;> simp [hb]

theorem splitBytes_first (sep : Nat) (P t : List Nat) (hP : ∀ b ∈ P, b ≠ sep) :
    splitBytes sep (P ++ sep :: t) = P :: splitBytes sep t := by
  induction P with
  | nil =>
    rw [List.nil_append, splitBytes]
    rcases h : splitBytes sep t with _ | ⟨p, ps⟩
    · exact absurd h (splitBytes_ne_nil sep t)
    · simp
  | cons b P IH =>
    have hb : b ≠ sep := hP b (List.mem_cons_self b P)
    have hP2 : ∀ x ∈ P, x ≠ sep := fun x hx => hP x (List.mem_cons_of_mem b hx)
    rw [List.cons_append, splitBytes, IH hP2]
    simp [hb]

theorem zfill_length (w : Nat) (s : List Nat) (h : s.length ≤ w) :
    (zfill w s).length = w := by
  simp [zfill]; omega

/-! ## Loop lemmas -/

theorem codecStep_measure {t1 t2 : ℚ} {c c2 : Connection}
    (h : codecStep t1 t2 c = (c2, false)) : codecMeasure c2 < codecMeasure c := by
  unfold codecStep readBody readHeader at h
  by_cases hh : c.message_header.isSome
  · rw [if_pos hh] at h
    split at h
    · simp at h
    · split at h
      · simp at h
      · split at h
        · simp at h
        · rename_i hfull hdr hclock
          simp only [Prod.mk.injEq, and_true] at h
          subst h
          simp only [codecMeasure, resetRead, List.length_drop, Option.isSome_none, hh,
            if_true, if_false, Bool.false_eq_true]
          omega
  · rw [if_neg hh] at h
    split at h
    · simp at h
    · rename_i hlen
      simp only [Prod.mk.injEq, and_true] at h
      subst h
      simp only [codecMeasure, List.length_drop, Option.isSome_some, hh, if_true, if_false,
        Bool.false_eq_true, packetHeaderLength] at hlen ⊢
      omega

theorem codecLoopF_succ_true (fuel : Nat) (dts : Nat → ℚ × ℚ) (n : Nat) {c c2 : Connection}
    (h : codecStep (dts n).1 (dts n).2 c = (c2, true)) :
    codecLoopF (fuel + 1) dts n c = (c2, n + 1) := by
  rw [codecLoopF, h]

theorem codecLoopF_succ_false (fuel : Nat) (dts : Nat → ℚ × ℚ) (n : Nat) {c c2 : Connection}
    (h : codecStep (dts n).1 (dts n).2 c = (c2, false)) :
    codecLoopF (fuel + 1) dts n c = codecLoopF fuel dts (n + 1) c2 := by
  rw [codecLoopF, h]

theorem codecLoopF_fuel_irrel (dts : Nat → ℚ × ℚ) :
    ∀ f1 f2 n c, codecMeasure c < f1 → codecMeasure c < f2 →
      codecLoopF f1 dts n c = codecLoopF f2 dts n c := by
  intro f1
  induction f1 with
  | zero => intro f2 n c h1; omega
  | succ a IH =>
    intro f2 n c h1 h2
    cases f2 with
    | zero => omega
    | succ b =>
      rcases hs : codecStep (dts n).1 (dts n).2 c with ⟨c2, flag⟩
      cases flag
      · have hm := codecStep_measure hs
        rw [codecLoopF_succ_false a dts n hs, codecLoopF_succ_false b dts n hs]
        exact IH b (n + 1) c2 (by omega) (by omega)
      · rw [codecLoopF_succ_true a dts n hs, codecLoopF_succ_true b dts n hs]

theorem codecLoopF_const_idx (q : ℚ × ℚ) :
    ∀ fuel n m c, (codecLoopF fuel (fun _ => q) n c).1 = (codecLoopF fuel (fun _ => q) m c).1 := by
  intro fuel
  induction fuel with
  | zero => intro n m c; rfl
  | succ a IH =>
    intro n m c
    rcases hs : codecStep q.1 q.2 c with ⟨c2, flag⟩
    cases flag
    · rw [codecLoopF_succ_false a (fun _ => q) n hs, codecLoopF_succ_false a (fun _ => q) m hs]
      exact IH (n + 1) (m + 1) c2
    · rw [codecLoopF_succ_true a (fun _ => q) n hs, codecLoopF_succ_true a (fun _ => q) m hs]

theorem codecStep_benign {t1 t2 : ℚ} (h1 : t1 ≤ t2) (h2 : t2 - t1 ≤ 500) (c : Connection) :
    codecStep t1 t2 c = codecStep 0 0 c := by
  unfold codecStep readBody
  have hc : ¬(t2 - t1 < 0 ∨ t2 - t1 > 500) := by
    push_neg
    constructor <;> linarith
  have hz : ¬((0 : ℚ) - 0 < 0 ∨ (0 : ℚ) - 0 > 500) := by norm_num
  simp only [hc, hz, if_false]

theorem codecRun_step_true {c c2 : Connection} (h : codecStep 0 0 c = (c2, true)) :
    codecRun c = c2 := by
  unfold codecRun
  rw [codecLoopF_succ_true (codecMeasure c) (fun _ => ((0 : ℚ), (0 : ℚ))) 0 h]

theorem codecRun_step_false {c c2 : Connection} (h : codecStep 0 0 c = (c2, false)) :
    codecRun c = codecRun c2 := by
  unfold codecRun
  rw [codecLoopF_succ_false (codecMeasure c) (fun _ => ((0 : ℚ), (0 : ℚ))) 0 h]
  have hm := codecStep_measure h
  rw [codecLoopF_fuel_irrel (fun _ => ((0 : ℚ), (0 : ℚ))) (codecMeasure c) (codecMeasure c2 + 1) 1 c2
    (by omega) (by omega)]
  exact codecLoopF_const_idx ((0 : ℚ), (0 : ℚ)) (codecMeasure c2 + 1) 1 0 c2

/-- With a benign clock oracle (each pair of back-to-back readings non-decreasing
and less than 500 ms apart), the reassembly loop computes `codecRun`, no matter
where in the oracle stream it starts. -/
theorem codecLoopF_benign (dts : Nat → ℚ × ℚ)
    (hdts : ∀ k, (dts k).1 ≤ (dts k).2 ∧ (dts k).2 - (dts k).1 ≤ 500) :
    ∀ fuel n c, codecMeasure c < fuel → (codecLoopF fuel dts n c).1 = codecRun c := by
  intro fuel
  induction fuel with
  | zero => intro n c h; omega
  | succ a IH =>
    intro n c h
    rcases hs : codecStep 0 0 c with ⟨c2, flag⟩
    have hstep : codecStep (dts n).1 (dts n).2 c = (c2, flag) := by
      rw [codecStep_benign (hdts n).1 (hdts n).2, hs]
    cases flag
    · have hm := codecStep_measure hs
      rw [codecLoopF_succ_false a dts n hstep, IH (n + 1) c2 (by omega)]
      exact (codecRun_step_false hs).symm
    · rw [codecLoopF_succ_true a dts n hstep]
      exact (codecRun_step_true hs).symm

/-! ## Chunk-boundary invariance -/

/-- Appending newly received bytes to the network buffer. -/
def addBytes (c : Connection) (s : List Nat) : Connection :=
  { c with network_buffer := c.network_buffer ++ s }

theorem addBytes_nil (c : Connection) : addBytes c [] = c := by
  simp [addBytes]

theorem addBytes_append (c : Connection) (a b : List Nat) :
    addBytes (addBytes c a) b = addBytes c (a ++ b) := by
  simp [addBytes]

theorem runChunk_eq (c : Connection) (s : List Nat) : runChunk c s = codecRun (addBytes c s) := rfl

theorem take_append_of_le {α : Type} (n : Nat) (l1 l2 : List α) (h : n ≤ l1.length) :
    (l1 ++ l2).take n = l1.take n := by
  rw [List.take_append_eq_append_take, Nat.sub_eq_zero_of_le h]
  simp

theorem drop_append_of_le {α : Type} (n : Nat) (l1 l2 : List α) (h : n ≤ l1.length) :
    (l1 ++ l2).drop n = l1.drop n ++ l2 := by
  rw [List.drop_append_eq_append_drop, Nat.sub_eq_zero_of_le h]
  simp

theorem no_drop_zero : ¬((0 : ℚ) - 0 < 0 ∨ (0 : ℚ) - 0 > 500) := by norm_num

theorem addBytes_header (c : Connection) (s : List Nat) :
    (addBytes c s).message_header = c.message_header := rfl

theorem addBytes_buf (c : Connection) (s : List Nat) :
    (addBytes c s).network_buffer = c.network_buffer ++ s := rfl

theorem addBytes_mb (c : Connection) (s : List Nat) :
    (addBytes c s).message_buffer = c.message_buffer := rfl

theorem addBytes_rem (c : Connection) (s : List Nat) :
    (addBytes c s).message_bytes_remaining = c.message_bytes_remaining := rfl

theorem addBytes_input (c : Connection) (s : List Nat) :
    (addBytes c s).input_buffer = c.input_buffer := rfl

/-- A continuing codec step commutes with appending future bytes to the buffer. -/
theorem codecStep_append_false {c c2 : Connection} (s : List Nat)
    (h : codecStep 0 0 c = (c2, false)) :
    codecStep 0 0 (addBytes c s) = (addBytes c2 s, false) := by
  unfold codecStep readBody readHeader at h ⊢
  simp only [addBytes_header, addBytes_buf, addBytes_mb, addBytes_rem, addBytes_input,
    List.length_append, packetHeaderLength] at h ⊢
  by_cases hh : c.message_header.isSome
  · rw [if_pos hh] at h
    rw [if_pos hh]
    split at h
    · simp at h
    · split at h
      · simp at h
      · split at h
        · simp at h
        · rename_i hfull hdr hclock
          simp only [Prod.mk.injEq, and_true] at h
          subst h
          have hle : c.message_bytes_remaining ≤ c.network_buffer.length := by omega
          rw [if_neg (show ¬(c.network_buffer.length + s.length <
            c.message_bytes_remaining) by omega)]
          rw [if_neg hdr, if_neg no_drop_zero]
          rw [take_append_of_le _ _ _ hle, drop_append_of_le _ _ _ hle]
          simp [addBytes, resetRead]
  · rw [if_neg hh] at h
    rw [if_neg hh]
    split at h
    · simp at h
    · rename_i hlen
      simp only [Prod.mk.injEq, and_true] at h
      subst h
      have hle : 32 ≤ c.network_buffer.length := by omega
      rw [if_neg (show ¬(c.network_buffer.length + s.length < 32) by omega)]
      rw [take_append_of_le _ _ _ hle, drop_append_of_le _ _ _ hle]
      simp [addBytes]

/-- A stopping codec step does not change what the codec will deliver once
future bytes arrive. -/
theorem codecRun_append_of_stop {c c2 : Connection} (s : List Nat)
    (h : codecStep 0 0 c = (c2, true)) :
    codecRun (addBytes c2 s) = codecRun (addBytes c s) := by
  unfold codecStep readBody readHeader at h
  by_cases hh : c.message_header.isSome
  · rw [if_pos hh] at h
    split at h
    · rename_i hfull
      simp only [Prod.mk.injEq, and_true] at h
      subst h
      have hd : ¬c.message_header = none := by
        cases hmh : c.message_header
        · rw [hmh] at hh; simp at hh
        · simp
      by_cases hcase : c.network_buffer.length + s.length < c.message_bytes_remaining
      · -- both sides still lack body bytes: each stops in the partial branch
        have h1 : codecStep 0 0 (addBytes
            { c with
                message_buffer := c.message_buffer ++ c.network_buffer
                message_bytes_remaining := c.message_bytes_remaining - c.network_buffer.length
                network_buffer := [] } s) =
            ({ c with
                message_buffer := (c.message_buffer ++ c.network_buffer) ++ s
                message_bytes_remaining := (c.message_bytes_remaining - c.network_buffer.length)
                  - s.length
                network_buffer := [] }, true) := by
          unfold codecStep readBody
          simp only [addBytes_header, addBytes_buf, addBytes_mb, addBytes_rem, addBytes_input,
            List.length_append, List.nil_append, List.length_nil]
          rw [if_pos hh, if_pos (show s.length <
            c.message_bytes_remaining - c.network_buffer.length by omega)]
        have h2 : codecStep 0 0 (addBytes c s) =
            ({ c with
                message_buffer := c.message_buffer ++ (c.network_buffer ++ s)
                message_bytes_remaining := c.message_bytes_remaining
                  - (c.network_buffer.length + s.length)
                network_buffer := [] }, true) := by
          unfold codecStep readBody
          simp only [addBytes_header, addBytes_buf, addBytes_mb, addBytes_rem, addBytes_input,
            List.length_append]
          rw [if_pos hh, if_pos (show c.network_buffer.length + s.length <
            c.message_bytes_remaining by omega)]
        rw [codecRun_step_true h1, codecRun_step_true h2]
        simp only [Connection.mk.injEq, List.append_assoc, and_true, true_and]
        omega
      · -- the appended bytes complete the body: both sides deliver the same frame
        have hle : c.network_buffer.length ≤ c.message_bytes_remaining := by omega
        have h1 : codecStep 0 0 (addBytes
            { c with
                message_buffer := c.message_buffer ++ c.network_buffer
                message_bytes_remaining := c.message_bytes_remaining - c.network_buffer.length
                network_buffer := [] } s) =
            (resetRead { c with
                input_buffer := c.input_buffer ++ [(c.message_buffer ++ c.network_buffer) ++
                  s.take (c.message_bytes_remaining - c.network_buffer.length)]
                network_buffer := s.drop (c.message_bytes_remaining - c.network_buffer.length) },
              false) := by
          unfold codecStep readBody
          simp only [addBytes_header, addBytes_buf, addBytes_mb, addBytes_rem, addBytes_input,
            List.length_append, List.nil_append, List.length_nil]
          rw [if_pos hh, if_neg (show ¬(s.length <
            c.message_bytes_remaining - c.network_buffer.length) by omega)]
          rw [if_neg hd, if_neg no_drop_zero]
          simp [resetRead]
        have h2 : codecStep 0 0 (addBytes c s) =
            (resetRead { c with
                input_buffer := c.input_buffer ++ [c.message_buffer ++
                  (c.network_buffer ++ s).take c.message_bytes_remaining]
                network_buffer := (c.network_buffer ++ s).drop c.message_bytes_remaining },
              false) := by
          unfold codecStep readBody
          simp only [addBytes_header, addBytes_buf, addBytes_mb, addBytes_rem, addBytes_input,
            List.length_append]
          rw [if_pos hh, if_neg (show ¬(c.network_buffer.length + s.length <
            c.message_bytes_remaining) by omega)]
          rw [if_neg hd, if_neg no_drop_zero]
        rw [codecRun_step_false h1, codecRun_step_false h2]
        rw [List.take_append_eq_append_take, List.take_of_length_le hle,
          List.drop_append_eq_append_drop, List.drop_eq_nil_of_le hle]
        simp [resetRead, List.append_assoc]
    · split at h
      · rename_i hfull hdr
        rw [hdr] at hh
        simp at hh
      · split at h
        · rename_i hfull hdr hclock
          exact absurd hclock no_drop_zero
        · simp at h
  · rw [if_neg hh] at h
    split at h
    · simp only [Prod.mk.injEq, and_true] at h
      subst h
      rfl
    · simp at h

/-- Running a chunk from the quiescent state reached by the codec gives the same
result as running it from any state that quiesces there. -/
theorem runChunk_codecRun (c : Connection) (s : List Nat) :
    runChunk (codecRun c) s = runChunk c s := by
  suffices H : ∀ μ c2, codecMeasure c2 = μ → runChunk (codecRun c2) s = runChunk c2 s from
    H (codecMeasure c) c rfl
  intro μ
  induction μ using Nat.strong_induction_on with
  | _ μ IH =>
    intro c2 hμ
    rcases hs : codecStep 0 0 c2 with ⟨c3, flag⟩
    cases flag
    · have hm := codecStep_measure hs
      rw [codecRun_step_false hs]
      rw [IH (codecMeasure c3) (by omega) c3 rfl]
      rw [runChunk_eq, runChunk_eq]
      rw [codecRun_step_false (codecStep_append_false s hs)]
    · rw [codecRun_step_true hs, runChunk_eq, runChunk_eq]
      exact codecRun_append_of_stop s hs

/-- Sequential chunk processing (benign clock). -/
def runChunks (c : Connection) : List (List Nat) → Connection
  | [] => c
  | ch :: rest => runChunks (runChunk c ch) rest

theorem feedChunks_benign (dts : Nat → ℚ × ℚ)
    (hdts : ∀ k, (dts k).1 ≤ (dts k).2 ∧ (dts k).2 - (dts k).1 ≤ 500) :
    ∀ (chunks : List (List Nat)) (n : Nat) (c : Connection),
      feedChunks dts n c chunks = runChunks c chunks := by
  intro chunks
  induction chunks with
  | nil => intro n c; rfl
  | cons ch rest IH =>
    intro n c
    rw [feedChunks, runChunks]
    have h1 : (readChunk dts n c ch).1 = runChunk c ch := by
      rw [readChunk, runChunk_eq]
      exact codecLoopF_benign dts hdts _ n (addBytes c ch) (Nat.lt_succ_self _)
    rw [h1]
    exact IH _ _

theorem runChunks_flatten :
    ∀ (chunks : List (List Nat)) (c : Connection),
      runChunks (codecRun c) chunks = codecRun (addBytes c chunks.flatten) := by
  intro chunks
  induction chunks with
  | nil => intro c; rw [runChunks, List.flatten_nil, addBytes_nil]
  | cons ch rest IH =>
    intro c
    rw [runChunks, runChunk_codecRun, runChunk_eq, IH (addBytes c ch), addBytes_append,
      List.flatten_cons]

/-! ## Decoding a fully framed stream -/

/-- One frame as produced by the write path: fixed-width header then body. -/
def frameBytes (tsBytes m : List Nat) : List Nat :=
  zfill packetHeaderLength (headerCore m.length tsBytes) ++ m

/-- The byte stream produced by framing each message with its timestamp bytes. -/
def frameStream : List (List Nat) → List (List Nat) → List Nat
  | m :: ms, t :: ts => frameBytes t m ++ frameStream ms ts
  | _, _ => []

theorem codecStep_waitHeader (c : Connection) (hnone : c.message_header = none)
    (hlen : c.network_buffer.length < packetHeaderLength) : codecStep 0 0 c = (c, true) := by
  unfold codecStep readHeader
  rw [hnone]
  simp only [Option.isSome_none, Bool.false_eq_true, if_false]
  rw [if_pos hlen]

theorem codecStep_header (c : Connection) (hnone : c.message_header = none)
    (hlen : packetHeaderLength ≤ c.network_buffer.length) :
    codecStep 0 0 c =
      ({ c with
          message_bytes_remaining :=
            parseNatAscii ((splitBytes 32 (c.network_buffer.take packetHeaderLength)).getD 0 [])
          message_header := some
            ⟨parseNatAscii ((splitBytes 32 (c.network_buffer.take packetHeaderLength)).getD 0 []),
             parseFloatAscii ((splitBytes 32 (c.network_buffer.take packetHeaderLength)).getD 1 [])⟩
          network_buffer := c.network_buffer.drop packetHeaderLength }, false) := by
  unfold codecStep readHeader
  rw [hnone]
  simp only [Option.isSome_none, Bool.false_eq_true, if_false]
  rw [if_neg (by omega)]

theorem codecStep_deliver (c : Connection) (hsome : c.message_header.isSome)
    (hfull : c.message_bytes_remaining ≤ c.network_buffer.length) :
    codecStep 0 0 c =
      (resetRead
        { c with
            input_buffer := c.input_buffer ++
              [c.message_buffer ++ c.network_buffer.take c.message_bytes_remaining]
            network_buffer := c.network_buffer.drop c.message_bytes_remaining }, false) := by
  unfold codecStep readBody
  rw [if_pos hsome, if_neg (by omega), if_neg (Option.isSome_iff_ne_none.mp hsome),
    if_neg no_drop_zero]

theorem splitBytes_zfill_header (len : Nat) (ts : List Nat) :
    splitBytes 32 (zfill packetHeaderLength (headerCore len ts)) =
      (List.replicate (packetHeaderLength - (headerCore len ts).length) 48 ++ natToAscii len)
        :: splitBytes 32 ts := by
  have hshape : zfill packetHeaderLength (headerCore len ts) =
      (List.replicate (packetHeaderLength - (headerCore len ts).length) 48 ++ natToAscii len)
        ++ (32 :: ts) := by
    rw [zfill, headerCore]
    simp [List.append_assoc]
  rw [hshape]
  apply splitBytes_first
  intro b hb
  rcases List.mem_append.mp hb with hb | hb
  · have := List.eq_of_mem_replicate hb
    omega
  · have := natToAscii_isDigit len b hb
    omega

theorem parse_header_len (k len : Nat) :
    parseNatAscii (List.replicate k 48 ++ natToAscii len) = len := by
  rw [parseNatAscii_zeros, parseNatAscii_natToAscii]

/-- Feeding a whole framed stream to a quiescent codec delivers exactly the
framed messages, in order. -/
theorem codecRun_frameStream (msgs : List (List Nat)) :
    ∀ (tss : List (List Nat)) (acc : List (List Nat)),
      msgs.length = tss.length →
      (∀ p ∈ msgs.zip tss, (headerCore p.1.length p.2).length ≤ packetHeaderLength) →
      codecRun ⟨frameStream msgs tss, [], none, 0, acc⟩ = ⟨[], [], none, 0, acc ++ msgs⟩ := by
  induction msgs with
  | nil =>
    intro tss acc hlen hfit
    have hstream : frameStream [] tss = [] := by cases tss <;> rfl
    rw [hstream]
    have hstop : codecStep 0 0 (⟨[], [], none, 0, acc⟩ : Connection) =
        ((⟨[], [], none, 0, acc⟩ : Connection), true) :=
      codecStep_waitHeader _ rfl (by simp [packetHeaderLength])
    rw [codecRun_step_true hstop]
    simp
  | cons m ms IH =>
    intro tss acc hlen hfit
    cases tss with
    | nil => simp at hlen
    | cons t ts =>
      have hfit1 : (headerCore m.length t).length ≤ packetHeaderLength := hfit (m, t) (by simp)
      have hfits : ∀ p ∈ ms.zip ts, (headerCore p.1.length p.2).length ≤ packetHeaderLength :=
        fun p hp => hfit p (by simp [hp])
      have hzl : (zfill packetHeaderLength (headerCore m.length t)).length = packetHeaderLength :=
        zfill_length _ _ hfit1
      have hbufshape : frameStream (m :: ms) (t :: ts) =
          zfill packetHeaderLength (headerCore m.length t) ++ (m ++ frameStream ms ts) := by
        rw [frameStream, frameBytes, List.append_assoc]
      have htake : (frameStream (m :: ms) (t :: ts)).take packetHeaderLength =
          zfill packetHeaderLength (headerCore m.length t) := by
        rw [hbufshape, take_append_of_le _ _ _ (le_of_eq hzl.symm),
          List.take_of_length_le (le_of_eq hzl)]
      have hdrop : (frameStream (m :: ms) (t :: ts)).drop packetHeaderLength =
          m ++ frameStream ms ts := by
        rw [hbufshape, drop_append_of_le _ _ _ (le_of_eq hzl.symm),
          List.drop_eq_nil_of_le (le_of_eq hzl), List.nil_append]
      have hs1 := codecStep_header (⟨frameStream (m :: ms) (t :: ts), [], none, 0, acc⟩ :
        Connection) rfl (by rw [hbufshape, List.length_append, hzl]; omega)
      rw [codecRun_step_false hs1]
      simp only [htake, hdrop, splitBytes_zfill_header, List.getD_cons_zero,
        List.getD_cons_succ, parse_header_len]
      have hs2 := codecStep_deliver
        (⟨m ++ frameStream ms ts, [],
          some ⟨m.length, parseFloatAscii ((splitBytes 32 t).getD 0 [])⟩,
          m.length, acc⟩ : Connection) rfl (by simp)
      rw [codecRun_step_false hs2]
      simp only [resetRead, List.take_left, List.drop_left, List.nil_append]
      rw [IH ts (acc ++ [m]) (by simpa using hlen) hfits]
      simp

theorem writeFrame_some (tsBytes m : List Nat)
    (h : (headerCore m.length tsBytes).length ≤ packetHeaderLength) :
    writeFrame tsBytes m = some (frameBytes tsBytes m) := by
  unfold writeFrame frameBytes
  simp [zfill_length _ _ h]

theorem writeFrame_fit {tsBytes m f : List Nat} (h : writeFrame tsBytes m = some f) :
    (headerCore m.length tsBytes).length ≤ packetHeaderLength ∧ f = frameBytes tsBytes m := by
  simp only [writeFrame] at h
  split at h
  · simp at h
  · rename_i hle
    have hz : (zfill packetHeaderLength (headerCore m.length tsBytes)).length =
        (packetHeaderLength - (headerCore m.length tsBytes).length) +
          (headerCore m.length tsBytes).length := by
      simp [zfill]
    constructor
    · omega
    · rw [frameBytes]
      exact (Option.some.injEq _ _).mp h.symm

theorem frames_eq_stream :
    ∀ (msgs tss frames : List (List Nat)), msgs.length = tss.length →
      List.Forall₂ (fun (p : List Nat × List Nat) f => writeFrame p.2 p.1 = some f)
        (msgs.zip tss) frames →
      frames.flatten = frameStream msgs tss ∧
        ∀ p ∈ msgs.zip tss, (headerCore p.1.length p.2).length ≤ packetHeaderLength := by
  intro msgs
  induction msgs with
  | nil =>
    intro tss frames hlen h
    simp only [List.zip_nil_left] at h
    rcases List.forall₂_nil_left_iff.mp h with rfl
    constructor
    · cases tss <;> rfl
    · simp
  | cons m ms IH =>
    intro tss frames hlen h
    cases tss with
    | nil => simp at hlen
    | cons t ts =>
      rw [List.zip_cons_cons] at h
      cases h with
      | cons hf hrest =>
        rename_i f fs
        obtain ⟨hfit1, rfl⟩ := writeFrame_fit hf
        obtain ⟨hflat, hfits⟩ := IH ts fs (by simpa using hlen) hrest
        constructor
        · rw [List.flatten_cons, hflat, frameStream]
        · intro p hp
          rw [List.zip_cons_cons] at hp
          rcases List.mem_cons.mp hp with rfl | hp
          · exact hfit1
          · exact hfits p hp

/-- C1: every sequence of messages framed and written by the write path and
delivered to the receiving codec as arbitrary non-empty chunks is reassembled
into exactly the original message bodies, in order, regardless of chunk
boundaries, provided each pair of back-to-back clock readings taken by
`_read_body` is non-decreasing and less than 500 ms apart. -/
theorem c1_chunking_invariance
    (msgs tss frames chunks : List (List Nat)) (dts : Nat → ℚ × ℚ) (n : Nat)
    (hlen : msgs.length = tss.length)
    (hwrite : List.Forall₂ (fun (p : List Nat × List Nat) f => writeFrame p.2 p.1 = some f)
      (msgs.zip tss) frames)
    (hchunks : chunks.flatten = frames.flatten)
    (hne : ∀ ch ∈ chunks, ch ≠ [])
    (hdts : ∀ k, (dts k).1 ≤ (dts k).2 ∧ (dts k).2 - (dts k).1 ≤ 500) :
    (feedChunks dts n emptyConnection chunks).input_buffer = msgs := by
  obtain ⟨hflat, hfit⟩ := frames_eq_stream msgs tss frames hlen hwrite
  rw [feedChunks_benign dts hdts chunks n emptyConnection]
  have hrun : runChunks emptyConnection chunks =
      codecRun (addBytes emptyConnection chunks.flatten) := by
    have h0 : codecRun emptyConnection = emptyConnection := rfl
    have := runChunks_flatten chunks emptyConnection
    rwa [h0] at this
  have haddr : addBytes emptyConnection chunks.flatten =
      (⟨frameStream msgs tss, [], none, 0, []⟩ : Connection) := by
    rw [hchunks, hflat]
    simp [addBytes, emptyConnection]
  rw [hrun, haddr, codecRun_frameStream msgs tss [] hlen hfit]
  simp

/-- Witness for C1: two messages, framed with concrete timestamp renderings and
split at a boundary that cuts the second frame's header in half. -/
theorem c1_witness :
    (feedChunks (fun _ => ((0 : ℚ), (0 : ℚ))) 0 emptyConnection
      [(frameBytes [49, 48] [7, 8] ++ frameBytes [50, 48, 46, 53] [9]).take 50,
       (frameBytes [49, 48] [7, 8] ++ frameBytes [50, 48, 46, 53] [9]).drop 50]).input_buffer
      = [[7, 8], [9]] :=
  c1_chunking_invariance [[7, 8], [9]] [[49, 48], [50, 48, 46, 53]]
    [frameBytes [49, 48] [7, 8], frameBytes [50, 48, 46, 53] [9]]
    [(frameBytes [49, 48] [7, 8] ++ frameBytes [50, 48, 46, 53] [9]).take 50,
     (frameBytes [49, 48] [7, 8] ++ frameBytes [50, 48, 46, 53] [9]).drop 50]
    (fun _ => ((0 : ℚ), (0 : ℚ))) 0 rfl
    (List.Forall₂.cons (by decide) (List.Forall₂.cons (by decide) List.Forall₂.nil))
    (by decide) (by decide)
    (fun k => ⟨le_refl 0, by norm_num⟩)

/-- C7: the staleness check in `_read_body` compares the two receiver-side
clock readings taken back-to-back on lines 170-171 and never consults the
frame's embedded header timestamp.  Under the assumption that the two adjacent
readings are non-decreasing and differ by less than 500 ms, the drop branch is
unreachable: every fully received frame body is appended to the inbound queue,
and the outcome is identical for any two values of the header timestamp. -/
theorem c7_staleness_check (c : Connection) (len : Nat) (ts ts2 : ℚ) (t1 t2 : ℚ)
    (hh : c.message_header = some ⟨len, ts⟩)
    (hfull : c.message_bytes_remaining ≤ c.network_buffer.length)
    (ht : t1 ≤ t2) (ht500 : t2 - t1 < 500) :
    (readBody t1 t2 c).1.input_buffer =
      c.input_buffer ++ [c.message_buffer ++
        c.network_buffer.take c.message_bytes_remaining] ∧
    (readBody t1 t2 c).2 = false ∧
    readBody t1 t2 c = readBody t1 t2 { c with message_header := some ⟨len, ts2⟩ } := by
  have hcond : ¬(t2 - t1 < 0 ∨ t2 - t1 > 500) := by
    push_neg
    constructor <;> linarith
  have hbody : ∀ (hmh : Option PacketHeader), hmh.isSome →
      readBody t1 t2 { c with message_header := hmh } =
        (resetRead { c with
            input_buffer := c.input_buffer ++
              [c.message_buffer ++ c.network_buffer.take c.message_bytes_remaining]
            network_buffer := c.network_buffer.drop c.message_bytes_remaining }, false) := by
    intro hmh hsome
    unfold readBody
    rw [if_neg (by simp; omega), if_neg (by simpa using Option.isSome_iff_ne_none.mp hsome),
      if_neg hcond]
    simp [resetRead]
  have hc : { c with message_header := some (⟨len, ts⟩ : PacketHeader) } = c := by
    rw [← hh]
  refine ⟨?_, ?_, ?_⟩
  · rw [← hc, hbody (some ⟨len, ts⟩) rfl]
    simp [resetRead]
  · rw [← hc, hbody (some ⟨len, ts⟩) rfl]
  · rw [← hc, hbody (some ⟨len, ts⟩) rfl, hbody (some ⟨len, ts2⟩) rfl]

/-- Witness for C7: a fully buffered 2-byte body with header timestamp 99999
is delivered, and changing the header timestamp to 0 changes nothing. -/
theorem c7_witness :
    (readBody 1 2 ⟨[5, 6, 7], [], some ⟨2, 99999⟩, 2, []⟩).1.input_buffer = [[5, 6]] ∧
    (readBody 1 2 ⟨[5, 6, 7], [], some ⟨2, 99999⟩, 2, []⟩).2 = false ∧
    readBody 1 2 ⟨[5, 6, 7], [], some ⟨2, 99999⟩, 2, []⟩ =
      readBody 1 2 ⟨[5, 6, 7], [], some ⟨2, 0⟩, 2, []⟩ := by
  have h := c7_staleness_check ⟨[5, 6, 7], [], some ⟨2, 99999⟩, 2, []⟩ 2 99999 0 1 2
    rfl (by simp) (by norm_num) (by norm_num)
  refine ⟨?_, h.2.1, h.2.2⟩
  rw [h.1]
  rfl

/-! ## Secure channel (src/encryption.py)

The AES block cipher, elliptic-curve scalar multiplication, point
serialization, and HKDF come from the `cryptography` library; they are
parameters of the embedding, constrained only by their documented contracts
(block-cipher inverse on 16-byte blocks, commutativity of the Diffie-Hellman
shared point, HKDF output length). -/

/-- AES/PKCS7 block size in bytes (`padding.PKCS7(128)`, src/encryption.py line 16). -/
def blockSize : Nat := 16

/-- Byte-wise xor of two equal-length byte strings. -/
def xorBytes (a b : List Nat) : List Nat := List.zipWith (fun x y => x ^^^ y) a b

/-- PKCS7 padding: append `k` copies of `k` where `k = 16 - len mod 16`. -/
def pkcs7pad (m : List Nat) : List Nat :=
  let k := blockSize - m.length % blockSize
  m ++ List.replicate k k

/-- PKCS7 unpadding as performed by the library unpadder: `none` models the
`ValueError` raised on empty input, on a length that is not a multiple of the
block size, or on inconsistent padding bytes. -/
def pkcs7unpad (m : List Nat) : Option (List Nat) :=
  match m.getLast? with
  | none => none
  | some k =>
    if m.length % blockSize = 0 ∧ 1 ≤ k ∧ k ≤ blockSize ∧
        (m.drop (m.length - k)).all (fun b => b = k) then
      some (m.take (m.length - k))
    else none

/-- Split a byte string into 16-byte blocks (explicit fuel; `fuel ≥ length`
always suffices). -/
def chunkBlocksGo : Nat → List Nat → List (List Nat)
  | 0, _ => []
  | _ + 1, [] => []
  | fuel + 1, l => l.take blockSize :: chunkBlocksGo fuel (l.drop blockSize)

def chunkBlocks (l : List Nat) : List (List Nat) := chunkBlocksGo l.length l

/-- CBC encryption over a list of plaintext blocks with chaining value `prev`
(the IV for the first block). -/
def cbcEncBlocks (E : List Nat → List Nat) (prev : List Nat) :
    List (List Nat) → List (List Nat)
  | [] => []
  | b :: bs =>
    let cb := E (xorBytes b prev)
    cb :: cbcEncBlocks E cb bs

/-- CBC decryption over a list of ciphertext blocks with chaining value `prev`. -/
def cbcDecBlocks (D : List Nat → List Nat) (prev : List Nat) :
    List (List Nat) → List (List Nat)
  | [] => []
  | cb :: cbs => xorBytes (D cb) prev :: cbcDecBlocks D cb cbs

/-- `NetworkEncryption` state (src/encryption.py lines 13-23), generic over the
elliptic-curve point type `G`.  The cipher is determined by its derived key and
CBC initialization vector. -/
structure NetworkEncryption (G : Type) where
  enabled : Bool := false
  private_key : Option Nat := none
  public_key : Option G := none
  shared_key : Option (List Nat) := none
  cipher : Option (List Nat × List Nat) := none
  deriving DecidableEq

/-- `NetworkEncryption.is_enabled` (src/encryption.py lines 25-26). -/
def is_enabled {G : Type} (st : NetworkEncryption G) : Bool := st.enabled

/-- `NetworkEncryption.set_enabled` (src/encryption.py lines 28-29). -/
def set_enabled {G : Type} (st : NetworkEncryption G) (b : Bool) : NetworkEncryption G :=
  { st with enabled := b }

/-- `NetworkEncryption.generate_keys` (src/encryption.py lines 31-34): `priv`
is the randomly generated private scalar, `smul` scalar multiplication on the
fixed curve SECP384R1, `gen` its base point.  Returns the new state and the
public key. -/
def generate_keys {G : Type} (smul : Nat → G → G) (gen : G) (priv : Nat)
    (st : NetworkEncryption G) : NetworkEncryption G × G :=
  let pub := smul priv gen
  ({ st with private_key := some priv, public_key := some pub }, pub)

/-- `NetworkEncryption.exchange_keys` (src/encryption.py lines 36-55): `none`
models the exception raised when keys have not been generated.  `serialize` is
the ECDH shared-secret serialization, `hkdf len info secret` the HKDF-SHA256
derivation. -/
def exchange_keys {G : Type} (smul : Nat → G → G) (serialize : G → List Nat)
    (hkdf : Nat → String → List Nat → List Nat) (st : NetworkEncryption G) (peer : G) :
    Option (NetworkEncryption G) :=
  match st.private_key with
  | none => none
  | some priv =>
    let shared := serialize (smul priv peer)
    let derived := hkdf 32 "encrypted packet message" shared
    let iv := hkdf 16 "CBC vector" shared
    some { st with shared_key := some shared, cipher := some (derived, iv) }

/-- `NetworkEncryption.encrypt` (src/encryption.py lines 57-65): pass-through
unless enabled with a cipher; otherwise PKCS7-pad and CBC-encrypt with a fresh
encryptor built from the stored key and IV.  `aesE key` is the AES block
encryption under `key`. -/
def encrypt {G : Type} (aesE : List Nat → List Nat → List Nat)
    (st : NetworkEncryption G) (m : List Nat) : List Nat :=
  match st.enabled, st.cipher with
  | true, some (key, iv) => (cbcEncBlocks (aesE key) iv (chunkBlocks (pkcs7pad m))).flatten
  | _, _ => m

/-- `NetworkEncryption.decrypt` (src/encryption.py lines 67-76): pass-through
unless enabled with a cipher; otherwise CBC-decrypt with a fresh decryptor and
PKCS7-unpad.  `none` models the `ValueError` raised on invalid padding. -/
def decrypt {G : Type} (aesD : List Nat → List Nat → List Nat)
    (st : NetworkEncryption G) (m : List Nat) : Option (List Nat) :=
  match st.enabled, st.cipher with
  | true, some (key, iv) => pkcs7unpad ((cbcDecBlocks (aesD key) iv (chunkBlocks m)).flatten)
  | _, _ => some m

/-! ## Encryption round-trip lemmas -/

theorem chunkBlocksGo_fuel : ∀ f1 f2 (l : List Nat), l.length ≤ f1 → l.length ≤ f2 →
    chunkBlocksGo f1 l = chunkBlocksGo f2 l := by
  intro f1
  induction f1 with
  | zero =>
    intro f2 l h1 h2
    have : l = [] := by
      cases l
      · rfl
      · simp at h1
    subst this
    cases f2 <;> rfl
  | succ a IH =>
    intro f2 l h1 h2
    cases l with
    | nil => cases f2 <;> rfl
    | cons x rest =>
      cases f2 with
      | zero => simp at h2
      | succ b =>
        show (x :: rest).take blockSize :: chunkBlocksGo a ((x :: rest).drop blockSize) =
          (x :: rest).take blockSize :: chunkBlocksGo b ((x :: rest).drop blockSize)
        rw [IH b ((x :: rest).drop blockSize)
          (by simp only [List.length_drop, List.length_cons, blockSize] at h1 ⊢; omega)
          (by simp only [List.length_drop, List.length_cons, blockSize] at h2 ⊢; omega)]

theorem chunkBlocks_eq (l : List Nat) (h : l ≠ []) :
    chunkBlocks l = l.take blockSize :: chunkBlocks (l.drop blockSize) := by
  cases l with
  | nil => exact absurd rfl h
  | cons x rest =>
    show chunkBlocksGo (x :: rest).length (x :: rest) = _
    rw [show (x :: rest).length = rest.length + 1 from rfl]
    show (x :: rest).take blockSize :: chunkBlocksGo rest.length ((x :: rest).drop blockSize) = _
    rw [chunkBlocksGo_fuel rest.length ((x :: rest).drop blockSize).length
      ((x :: rest).drop blockSize)
      (by simp only [List.length_drop, List.length_cons, blockSize]; omega) (le_refl _)]
    rfl

theorem flatten_chunkBlocks (l : List Nat) : (chunkBlocks l).flatten = l := by
  suffices H : ∀ μ (l2 : List Nat), l2.length = μ → (chunkBlocks l2).flatten = l2 from
    H l.length l rfl
  intro μ
  induction μ using Nat.strong_induction_on with
  | _ μ IH =>
    intro l2 hμ
    cases hl : l2 with
    | nil => rfl
    | cons x rest =>
      rw [← hl, chunkBlocks_eq l2 (by rw [hl]; simp), List.flatten_cons]
      rw [IH (l2.drop blockSize).length (by rw [hl] at hμ ⊢; simp [blockSize] at *; omega)
        (l2.drop blockSize) rfl]
      exact List.take_append_drop _ _

theorem chunkBlocks_cons_block (b rest : List Nat) (hb : b.length = blockSize) :
    chunkBlocks (b ++ rest) = b :: chunkBlocks rest := by
  have hne : b ++ rest ≠ [] := by
    intro hcontra
    rw [List.append_eq_nil] at hcontra
    rw [hcontra.1] at hb
    simp [blockSize] at hb
  rw [chunkBlocks_eq _ hne, ← hb, List.take_left, List.drop_left]

theorem chunkBlocks_flatten_blocks :
    ∀ bs : List (List Nat), (∀ b ∈ bs, b.length = blockSize) →
      chunkBlocks bs.flatten = bs := by
  intro bs
  induction bs with
  | nil => intro h; rfl
  | cons b rest IH =>
    intro h
    rw [List.flatten_cons, chunkBlocks_cons_block b rest.flatten (h b (by simp)),
      IH (fun x hx => h x (by simp [hx]))]

theorem chunkBlocks_all16 (l : List Nat) (h : l.length % blockSize = 0) :
    ∀ b ∈ chunkBlocks l, b.length = blockSize := by
  suffices H : ∀ μ (l2 : List Nat), l2.length = μ → l2.length % blockSize = 0 →
      ∀ b ∈ chunkBlocks l2, b.length = blockSize from H l.length l rfl h
  intro μ
  induction μ using Nat.strong_induction_on with
  | _ μ IH =>
    intro l2 hμ hmod b hb
    cases hl : l2 with
    | nil => rw [hl] at hb; simp [chunkBlocks, chunkBlocksGo] at hb
    | cons x rest =>
      have hne : l2 ≠ [] := by rw [hl]; simp
      have hpos : 0 < l2.length := by rw [hl]; simp
      have hlen : blockSize ≤ l2.length := by
        simp only [blockSize] at hmod ⊢
        omega
      rw [chunkBlocks_eq l2 hne] at hb
      rcases List.mem_cons.mp hb with rfl | hb
      · rw [List.length_take]
        simp only [blockSize] at hlen ⊢
        omega
      · refine IH (l2.drop blockSize).length ?_ (l2.drop blockSize) rfl ?_ b hb
        · simp only [List.length_drop, blockSize] at hlen ⊢
          omega
        · simp only [List.length_drop, blockSize] at hmod hlen ⊢
          omega

theorem xorBytes_length (a b : List Nat) : (xorBytes a b).length = min a.length b.length := by
  simp [xorBytes]

theorem xorBytes_cancel : ∀ (p prev : List Nat), p.length ≤ prev.length →
    xorBytes (xorBytes p prev) prev = p := by
  intro p
  induction p with
  | nil => intro prev h; rfl
  | cons x xs IH =>
    intro prev h
    cases prev with
    | nil => simp at h
    | cons y ys =>
      show (x ^^^ y ^^^ y) :: xorBytes (xorBytes xs ys) ys = x :: xs
      rw [Nat.xor_assoc, Nat.xor_self, Nat.xor_zero, IH ys (by simpa using h)]

theorem cbcEncBlocks_lengths (E : List Nat → List Nat)
    (hE : ∀ b, b.length = blockSize → (E b).length = blockSize) :
    ∀ (bs : List (List Nat)) (prev : List Nat), (∀ b ∈ bs, b.length = blockSize) →
      prev.length = blockSize → ∀ cb ∈ cbcEncBlocks E prev bs, cb.length = blockSize := by
  intro bs
  induction bs with
  | nil => intro prev h hprev cb hcb; simp [cbcEncBlocks] at hcb
  | cons b rest IH =>
    intro prev h hprev cb hcb
    have hb : b.length = blockSize := h b (by simp)
    have hx : (xorBytes b prev).length = blockSize := by
      rw [xorBytes_length, hb, hprev]
      simp
    rw [cbcEncBlocks] at hcb
    rcases List.mem_cons.mp hcb with rfl | hcb
    · exact hE _ hx
    · exact IH (E (xorBytes b prev)) (fun x hx2 => h x (by simp [hx2])) (hE _ hx) cb hcb

theorem cbc_roundtrip (E D : List Nat → List Nat)
    (hE : ∀ b, b.length = blockSize → (E b).length = blockSize)
    (hD : ∀ b, b.length = blockSize → D (E b) = b) :
    ∀ (bs : List (List Nat)) (prev : List Nat), (∀ b ∈ bs, b.length = blockSize) →
      prev.length = blockSize → cbcDecBlocks D prev (cbcEncBlocks E prev bs) = bs := by
  intro bs
  induction bs with
  | nil => intro prev h hprev; rfl
  | cons b rest IH =>
    intro prev h hprev
    have hb : b.length = blockSize := h b (by simp)
    have hx : (xorBytes b prev).length = blockSize := by
      rw [xorBytes_length, hb, hprev]
      simp
    rw [cbcEncBlocks]
    show cbcDecBlocks D prev (E (xorBytes b prev) :: _) = b :: rest
    rw [cbcDecBlocks, hD _ hx, xorBytes_cancel b prev (by omega),
      IH (E (xorBytes b prev)) (fun x hx2 => h x (by simp [hx2])) (hE _ hx)]

theorem pkcs7pad_mod (m : List Nat) : (pkcs7pad m).length % blockSize = 0 := by
  have h16 : m.length % blockSize < blockSize := Nat.mod_lt _ (by decide)
  simp only [pkcs7pad, List.length_append, List.length_replicate, blockSize] at h16 ⊢
  omega

theorem getLast?_replicate_pos (k x : Nat) (h : 1 ≤ k) :
    (List.replicate k x).getLast? = some x := by
  cases k with
  | zero => omega
  | succ a => rw [List.replicate_succ', List.getLast?_concat]

theorem pkcs7unpad_of_getLast (m2 : List Nat) (k : Nat) (h : m2.getLast? = some k) :
    pkcs7unpad m2 =
      if m2.length % blockSize = 0 ∧ 1 ≤ k ∧ k ≤ blockSize ∧
          (m2.drop (m2.length - k)).all (fun b => b = k) then
        some (m2.take (m2.length - k))
      else none := by
  unfold pkcs7unpad
  rw [h]

theorem pkcs7unpad_pad (m : List Nat) : pkcs7unpad (pkcs7pad m) = some m := by
  have h16 : m.length % blockSize < blockSize := Nat.mod_lt _ (by decide)
  have hk1 : 1 ≤ blockSize - m.length % blockSize := by omega
  have hpadlen : (pkcs7pad m).length = m.length + (blockSize - m.length % blockSize) := by
    simp [pkcs7pad]
  have hlast : (pkcs7pad m).getLast? = some (blockSize - m.length % blockSize) := by
    simp only [pkcs7pad]
    rw [List.getLast?_append, getLast?_replicate_pos _ _ hk1]
    rfl
  rw [pkcs7unpad_of_getLast _ _ hlast]
  have hsub : (pkcs7pad m).length - (blockSize - m.length % blockSize) = m.length := by omega
  rw [if_pos ?cond]
  case cond =>
    refine ⟨pkcs7pad_mod m, hk1, Nat.sub_le _ _, ?_⟩
    rw [hsub]
    simp only [pkcs7pad]
    rw [show (m ++ List.replicate (blockSize - m.length % blockSize)
        (blockSize - m.length % blockSize)).drop m.length =
      List.replicate (blockSize - m.length % blockSize)
        (blockSize - m.length % blockSize) from List.drop_left _ _]
    simp [List.all_eq_true]
  rw [hsub]
  simp only [pkcs7pad]
  rw [show (m ++ List.replicate (blockSize - m.length % blockSize)
      (blockSize - m.length % blockSize)).take m.length = m from List.take_left _ _]

/-- C2: while the secure channel is disabled, `encrypt` and `decrypt` are
pass-throughs; once a cipher has been installed and the channel enabled,
`decrypt (encrypt m) = m` for every plaintext, given the AES block cipher
contract (length-preserving on 16-byte blocks and inverse under the same key). -/
theorem c2_encryption_roundtrip {G : Type} (aesE aesD : List Nat → List Nat → List Nat)
    (st : NetworkEncryption G) (m : List Nat) :
    (st.enabled = false → encrypt aesE st m = m ∧ decrypt aesD st m = some m) ∧
    (∀ key iv, st.enabled = true → st.cipher = some (key, iv) → iv.length = blockSize →
      (∀ b, b.length = blockSize → (aesE key b).length = blockSize) →
      (∀ b, b.length = blockSize → aesD key (aesE key b) = b) →
      decrypt aesD st (encrypt aesE st m) = some m) := by
  constructor
  · intro hd
    rw [encrypt, decrypt, hd]
    cases st.cipher <;> exact ⟨rfl, rfl⟩
  · intro key iv he hc hiv hE hD
    have hplain : ∀ b ∈ chunkBlocks (pkcs7pad m), b.length = blockSize :=
      chunkBlocks_all16 _ (pkcs7pad_mod m)
    have hct : ∀ cb ∈ cbcEncBlocks (aesE key) iv (chunkBlocks (pkcs7pad m)),
        cb.length = blockSize :=
      cbcEncBlocks_lengths (aesE key) hE _ iv hplain hiv
    rw [encrypt, decrypt, he, hc]
    show pkcs7unpad ((cbcDecBlocks (aesD key) iv
      (chunkBlocks (cbcEncBlocks (aesE key) iv (chunkBlocks (pkcs7pad m))).flatten)).flatten)
      = some m
    rw [chunkBlocks_flatten_blocks _ hct,
      cbc_roundtrip (aesE key) (aesD key) hE hD _ iv hplain hiv,
      flatten_chunkBlocks, pkcs7unpad_pad]

/-- Witness for C2 at the identity block cipher, a 16-byte zero IV, and a
3-byte plaintext (both the disabled pass-through and the enabled round-trip). -/
theorem c2_witness :
    (encrypt (fun _ b => b) (⟨false, none, none, none, none⟩ : NetworkEncryption Unit)
        [1, 2, 3] = [1, 2, 3] ∧
      decrypt (fun _ b => b) (⟨false, none, none, none, none⟩ : NetworkEncryption Unit)
        [1, 2, 3] = some [1, 2, 3]) ∧
    decrypt (fun _ b => b)
      (⟨true, none, none, none, some ([], List.replicate 16 0)⟩ : NetworkEncryption Unit)
      (encrypt (fun _ b => b)
        (⟨true, none, none, none, some ([], List.replicate 16 0)⟩ : NetworkEncryption Unit)
        [1, 2, 3]) = some [1, 2, 3] := by
  constructor
  · exact (c2_encryption_roundtrip (fun _ b => b) (fun _ b => b)
      (⟨false, none, none, none, none⟩ : NetworkEncryption Unit) [1, 2, 3]).1 rfl
  · exact (c2_encryption_roundtrip (fun _ b => b) (fun _ b => b)
      (⟨true, none, none, none, some ([], List.replicate 16 0)⟩ : NetworkEncryption Unit)
      [1, 2, 3]).2 [] (List.replicate 16 0) rfl rfl (by decide)
      (fun b hb => hb) (fun b hb => rfl)

/-- The sequence of ciphertexts produced over a connection lifetime: each call
to `encrypt` builds a fresh encryptor from the stored key and IV
(src/encryption.py line 61), so the trace is a plain map with no cipher state
carried from one frame to the next. -/
def encryptTrace {G : Type} (aesE : List Nat → List Nat → List Nat)
    (st : NetworkEncryption G) (msgs : List (List Nat)) : List (List Nat) :=
  msgs.map (encrypt aesE st)

/-- C10: once the channel state is fixed, the ciphertext of each call depends
only on that call's plaintext: the last ciphertext after any history equals
`encrypt` of the last plaintext, histories do not influence it, and the i-th
ciphertext is a function of the i-th plaintext alone. -/
theorem c10_encrypt_stateless {G : Type} (aesE : List Nat → List Nat → List Nat)
    (st : NetworkEncryption G) (msgs h1 h2 : List (List Nat)) (m : List Nat) :
    (encryptTrace aesE st (h1 ++ [m])).getLast? = some (encrypt aesE st m) ∧
    (encryptTrace aesE st (h1 ++ [m])).getLast? =
      (encryptTrace aesE st (h2 ++ [m])).getLast? ∧
    ∀ i : Nat, (encryptTrace aesE st msgs)[i]? = (msgs[i]?).map (encrypt aesE st) := by
  have hlast : ∀ h0 : List (List Nat),
      (encryptTrace aesE st (h0 ++ [m])).getLast? = some (encrypt aesE st m) := by
    intro h0
    rw [encryptTrace, List.map_append, List.getLast?_append]
    rfl
  exact ⟨hlast h1, by rw [hlast h1, hlast h2], fun i => List.getElem?_map _ _ _⟩

/-- C3: two secure channels that each generate a key pair on the fixed curve
and then exchange keys with each other's public key derive bit-identical
32-byte symmetric keys and bit-identical 16-byte CBC initialization vectors,
hence identical ciphers.  `hcomm` is the elliptic-curve Diffie-Hellman
commutativity of SECP384R1 scalar multiplication; `hklen` is the HKDF output
length contract. -/
theorem c3_handshake_keys_match {G : Type} (smul : Nat → G → G) (gen : G)
    (serialize : G → List Nat) (hkdf : Nat → String → List Nat → List Nat)
    (a b : Nat) (st1 st2 : NetworkEncryption G)
    (hcomm : ∀ x y : Nat, smul x (smul y gen) = smul y (smul x gen))
    (hklen : ∀ L info s, (hkdf L info s).length = L) :
    ∃ st1a st2a key iv,
      exchange_keys smul serialize hkdf (generate_keys smul gen a st1).1
        (generate_keys smul gen b st2).2 = some st1a ∧
      exchange_keys smul serialize hkdf (generate_keys smul gen b st2).1
        (generate_keys smul gen a st1).2 = some st2a ∧
      st1a.cipher = some (key, iv) ∧ st2a.cipher = some (key, iv) ∧
      key.length = 32 ∧ iv.length = 16 := by
  refine ⟨_, _, hkdf 32 "encrypted packet message" (serialize (smul a (smul b gen))),
    hkdf 16 "CBC vector" (serialize (smul a (smul b gen))), rfl, rfl, ?_, ?_,
    hklen 32 _ _, hklen 16 _ _⟩
  · rfl
  · simp only [exchange_keys, generate_keys]
    rw [hcomm b a]

/-- Witness for C3 over the multiplicative model `G := Nat`, `smul k g = k * g`,
generator 2, private scalars 3 and 5, singleton serialization, and a
constant-byte HKDF of the requested length. -/
theorem c3_witness :
    ∃ (st1a st2a : NetworkEncryption Nat) (key iv : List Nat),
      exchange_keys (fun k g => k * g) (fun g => [g])
        (fun L _ s => List.replicate L (s.foldl (· + ·) 0))
        (generate_keys (fun k g => k * g) 2 3
          (⟨false, none, none, none, none⟩ : NetworkEncryption Nat)).1
        (generate_keys (fun k g => k * g) 2 5
          (⟨false, none, none, none, none⟩ : NetworkEncryption Nat)).2 = some st1a ∧
      exchange_keys (fun k g => k * g) (fun g => [g])
        (fun L _ s => List.replicate L (s.foldl (· + ·) 0))
        (generate_keys (fun k g => k * g) 2 5
          (⟨false, none, none, none, none⟩ : NetworkEncryption Nat)).1
        (generate_keys (fun k g => k * g) 2 3
          (⟨false, none, none, none, none⟩ : NetworkEncryption Nat)).2 = some st2a ∧
      st1a.cipher = some (key, iv) ∧ st2a.cipher = some (key, iv) ∧
      key.length = 32 ∧ iv.length = 16 :=
  c3_handshake_keys_match (fun k g => k * g) 2 (fun g => [g])
    (fun L _ s => List.replicate L (s.foldl (· + ·) 0)) 3 5
    (⟨false, none, none, none, none⟩ : NetworkEncryption Nat)
    (⟨false, none, none, none, none⟩ : NetworkEncryption Nat)
    (fun x y => by ring) (fun L info s => by simp)

/-! ## Python dictionaries as insertion-ordered association lists -/

/-- Python `d[k]` lookup / `k in d` support: first binding wins (keys are
unique by construction). -/
def dictGet {α : Type} (k : String) (d : List (String × α)) : Option α :=
  (d.find? (fun p => p.1 = k)).map (fun p => p.2)

/-- Python `d[k] = v`: replace in place if the key exists, else append. -/
def dictInsert {α : Type} (k : String) (v : α) (d : List (String × α)) :
    List (String × α) :=
  if (d.find? (fun p => p.1 = k)).isSome then
    d.map (fun p => if p.1 = k then (k, v) else p)
  else d ++ [(k, v)]

/-- Python `del d[k]`. -/
def dictRemove {α : Type} (k : String) (d : List (String × α)) : List (String × α) :=
  d.filter (fun p => p.1 ≠ k)

theorem dictGet_nil {α : Type} (k : String) : dictGet k ([] : List (String × α)) = none := rfl

theorem dictInsert_of_absent {α : Type} (k : String) (v : α) (d : List (String × α))
    (h : (dictGet k d).isSome = false) : dictInsert k v d = d ++ [(k, v)] := by
  unfold dictInsert
  rw [if_neg]
  unfold dictGet at h
  intro hcontra
  obtain ⟨p, hp⟩ := Option.isSome_iff_exists.mp hcontra
  rw [hp] at h
  simp at h

theorem dictGet_insert_self {α : Type} (k : String) (v : α) (d : List (String × α)) :
    dictGet k (dictInsert k v d) = some v := by
  by_cases hmem : (d.find? (fun p => p.1 = k)).isSome
  · rw [dictInsert, if_pos hmem]
    induction d with
    | nil => simp at hmem
    | cons p rest IH =>
      by_cases hp : p.1 = k
      · simp [dictGet, List.find?, hp]
      · have hmem2 : (rest.find? (fun q => q.1 = k)).isSome := by
          rw [List.find?] at hmem
          simp [hp] at hmem
          simpa using hmem
        simp only [List.map_cons, if_neg hp]
        rw [dictGet, List.find?]
        simp only [hp, decide_eq_true_eq, if_neg]
        exact IH hmem2
  · rw [dictInsert, if_neg hmem, dictGet, List.find?_append]
    have hnone : d.find? (fun p => p.1 = k) = none :=
      Option.not_isSome_iff_eq_none.mp hmem
    rw [hnone]
    simp [List.find?]

/-! ## Server data model (src/server/server_state.py, src/shared/data.py) -/

/-- `PrivilegeLevel` (src/shared/data.py lines 30-32): `IntEnum` with
`User = 1`, `Admin = 2`. -/
inductive PrivilegeLevel where
  | User
  | Admin
  deriving DecidableEq

/-- The underlying `IntEnum` value used by `<` comparisons. -/
def PrivilegeLevel.toNat : PrivilegeLevel → Nat
  | .User => 1
  | .Admin => 2

/-- `UserData` (src/shared/data.py lines 35-38). -/
structure UserData where
  email : String
  password : String
  privilege : PrivilegeLevel
  deriving DecidableEq

/-- `Interaction` (src/shared/data.py lines 41-44). -/
structure Interaction where
  user_email : String
  message : String
  timestamp : Int
  deriving DecidableEq

/-- `LoginResponse` (src/shared/data.py lines 54-58). -/
structure LoginResponse where
  action : String := "login_response"
  success : Bool
  message : String
  level : Option PrivilegeLevel
  deriving DecidableEq

/-- The connection identity a server session sees: `(connection.ip,
str(connection.port))`. -/
structure ConnAddr where
  ip : String
  port : String
  deriving DecidableEq

/-- The in-memory state of `ServerDataManager` (src/server/server_state.py
lines 31-37): the user dictionary, the interaction log, and the nested
ip → port → email map of connected users. -/
structure ServerDataManager where
  users : List (String × UserData) := []
  logs : List Interaction := []
  connected_users : List (String × List (String × String)) := []
  deriving DecidableEq

/-- `ServerDataManager.is_user` (src/server/server_state.py lines 143-144). -/
def is_user (sd : ServerDataManager) (email : String) : Bool :=
  (dictGet email sd.users).isSome

/-- `ServerDataManager.get_user` (src/server/server_state.py lines 68-71). -/
def get_user (sd : ServerDataManager) (email : String) : Option UserData :=
  if is_user sd email = false then none else dictGet email sd.users

/-- `ServerDataManager.get_user_count` (src/server/server_state.py lines 76-77). -/
def get_user_count (sd : ServerDataManager) : Nat := sd.users.length

/-- `ServerDataManager.add_log` (src/server/server_state.py lines 82-84);
`now` is the `int(time.time())` reading. -/
def add_log (sd : ServerDataManager) (email message : String) (now : Int) :
    ServerDataManager :=
  { sd with logs := sd.logs ++ [⟨email, message, now⟩] }

/-- `ServerDataManager.add_user` (src/server/server_state.py lines 86-90). -/
def add_user (sd : ServerDataManager) (email password : String)
    (privilege_level : PrivilegeLevel) : ServerDataManager :=
  if is_user sd email then sd
  else { sd with users := dictInsert email ⟨email, password, privilege_level⟩ sd.users }

/-- `ServerDataManager.get_connected_user` (src/server/server_state.py lines
104-113). -/
def get_connected_user (sd : ServerDataManager) (conn : ConnAddr) : Option UserData :=
  match dictGet conn.ip sd.connected_users with
  | none => none
  | some ports =>
    match dictGet conn.port ports with
    | none => none
    | some email => get_user sd email

/-- The email another lookup of the nested connected-users map would yield;
used to state which connection holds which session. -/
def connectedEmail (sd : ServerDataManager) (conn : ConnAddr) : Option String :=
  match dictGet conn.ip sd.connected_users with
  | none => none
  | some ports => dictGet conn.port ports

/-- `ServerDataManager.login` (src/server/server_state.py lines 115-128).
Mutation of `_connected_users` is returned alongside the boolean result; note
that the empty inner dict created for a new ip persists even when the
subsequent port check fails. -/
def sdLogin (sd : ServerDataManager) (conn : ConnAddr) (email password : String) :
    Bool × ServerDataManager :=
  match get_user sd email with
  | none => (false, sd)
  | some user =>
    if user.password ≠ password then (false, sd)
    else
      let cu := if (dictGet conn.ip sd.connected_users).isSome = false then
          dictInsert conn.ip [] sd.connected_users
        else sd.connected_users
      match dictGet conn.ip cu with
      | none => (false, { sd with connected_users := cu })
      | some ports =>
        if (dictGet conn.port ports).isSome then (false, { sd with connected_users := cu })
        else
          let cu2 := dictInsert conn.ip (dictInsert conn.port email ports) cu
          (true, { sd with connected_users := cu2 })

/-- `Login._login` (src/server/server_state.py lines 207-223), returning the
response and the updated server data. -/
def loginStep (sd : ServerDataManager) (conn : ConnAddr) (email password : String) :
    LoginResponse × ServerDataManager :=
  match get_user sd email with
  | none => (⟨"login_response", false, "Account does not exist", none⟩, sd)
  | some user =>
    if user.password ≠ password then
      (⟨"login_response", false, "Incorrect password", none⟩, sd)
    else if (get_connected_user sd conn).isSome then
      (⟨"login_response", false, "Already logged in", none⟩, sd)
    else
      match sdLogin sd conn email password with
      | (false, sd2) => (⟨"login_response", false, "Failed to login", none⟩, sd2)
      | (true, sd2) =>
        (⟨"login_response", true, "Successfully logged in", some user.privilege⟩, sd2)

/-- `Login._register` (src/server/server_state.py lines 225-237). -/
def registerStep (sd : ServerDataManager) (email password : String) (now : Int) :
    LoginResponse × ServerDataManager :=
  if is_user sd email then
    (⟨"login_response", false, "Account already exists", none⟩, sd)
  else
    let privilege_level := if get_user_count sd = 0 then PrivilegeLevel.Admin
      else PrivilegeLevel.User
    let sd1 := add_log sd email "Account registered" now
    let sd2 := add_user sd1 email password privilege_level
    (⟨"login_response", true, "Successfully registered account", some privilege_level⟩, sd2)

/-- `Login.run` (src/server/server_state.py lines 239-246): dispatch on the
register flag. -/
def loginRun (register : Bool) (email password : String) (sd : ServerDataManager)
    (conn : ConnAddr) (now : Int) : LoginResponse × ServerDataManager :=
  if register then registerStep sd email password now else loginStep sd conn email password

/-- C4 (amended): a login request with register=false responds success=false
whenever the requesting connection is already associated with a logged-in
user, and a success=true response implies the password matched, the connection
had no logged-in user, and the connection held no session entry.  (Sessions
held by *other* connections for the same account do not affect the outcome;
see `c4_counterexample`.) -/
theorem c4_login_rejects (sd : ServerDataManager) (conn : ConnAddr)
    (email password : String) :
    ((get_connected_user sd conn).isSome →
      (loginStep sd conn email password).1.success = false) ∧
    ((loginStep sd conn email password).1.success = true →
      ∃ user, get_user sd email = some user ∧ user.password = password ∧
        get_connected_user sd conn = none ∧ connectedEmail sd conn = none) := by
  unfold loginStep
  rcases hu : get_user sd email with _ | user
  · exact ⟨fun _ => rfl, fun hcontra => absurd hcontra (by simp)⟩
  · dsimp only
    by_cases hpw : user.password ≠ password
    · rw [if_pos hpw]
      exact ⟨fun _ => rfl, fun hcontra => absurd hcontra (by simp)⟩
    · rw [if_neg hpw]
      have hpweq : user.password = password := not_not.mp hpw
      by_cases hconn : (get_connected_user sd conn).isSome
      · rw [if_pos hconn]
        exact ⟨fun _ => rfl, fun hcontra => absurd hcontra (by simp)⟩
      · rw [if_neg hconn]
        constructor
        · intro h
          exact absurd h hconn
        · intro hsucc
          refine ⟨user, rfl, hpweq, Option.not_isSome_iff_eq_none.mp hconn, ?_⟩
          rcases hlog : sdLogin sd conn email password with ⟨flag, sd2⟩
          cases flag
          · rw [hlog] at hsucc
            exact absurd hsucc (by simp)
          · unfold sdLogin at hlog
            rw [hu] at hlog
            dsimp only at hlog
            rw [if_neg hpw] at hlog
            rcases hip : dictGet conn.ip sd.connected_users with _ | ports
            · unfold connectedEmail
              rw [hip]
            · simp only [hip, Option.isSome_some, Bool.true_eq_false, if_false] at hlog
              by_cases hport : (dictGet conn.port ports).isSome
              · rw [if_pos hport] at hlog
                exact absurd (congrArg Prod.fst hlog) (by simp)
              · unfold connectedEmail
                rw [hip]
                exact Option.not_isSome_iff_eq_none.mp hport

/-- Witness for C4: a connection that already holds a session is rejected, and
a successful login implies the stated conditions. -/
theorem c4_witness :
    (loginStep ⟨[("u", ⟨"u", "pw", PrivilegeLevel.User⟩)], [], [("ip1", [("4000", "u")])]⟩
        ⟨"ip1", "4000"⟩ "u" "pw").1.success = false ∧
    ∃ user, get_user ⟨[("u", ⟨"u", "pw", PrivilegeLevel.User⟩)], [], []⟩ "u" = some user ∧
      user.password = "pw" ∧
      get_connected_user ⟨[("u", ⟨"u", "pw", PrivilegeLevel.User⟩)], [], []⟩
        ⟨"ip1", "4000"⟩ = none ∧
      connectedEmail ⟨[("u", ⟨"u", "pw", PrivilegeLevel.User⟩)], [], []⟩
        ⟨"ip1", "4000"⟩ = none :=
  ⟨(c4_login_rejects ⟨[("u", ⟨"u", "pw", PrivilegeLevel.User⟩)], [],
      [("ip1", [("4000", "u")])]⟩ ⟨"ip1", "4000"⟩ "u" "pw").1 (by decide),
   (c4_login_rejects ⟨[("u", ⟨"u", "pw", PrivilegeLevel.User⟩)], [], []⟩
      ⟨"ip1", "4000"⟩ "u" "pw").2 (by decide)⟩

/-- Counterexample to C4 as stated: connection ("ip2", "5000") already holds
the session for account "u", yet a login request for "u" from the distinct
connection ("ip1", "4000") succeeds — the code never checks whether another
connection holds a session for the requested account. -/
theorem c4_counterexample :
    connectedEmail ⟨[("u", ⟨"u", "pw", PrivilegeLevel.User⟩)], [],
      [("ip2", [("5000", "u")])]⟩ ⟨"ip2", "5000"⟩ = some "u" ∧
    (loginStep ⟨[("u", ⟨"u", "pw", PrivilegeLevel.User⟩)], [],
      [("ip2", [("5000", "u")])]⟩ ⟨"ip1", "4000"⟩ "u" "pw").1.success = true := by
  decide

/-- C8: a login request with register=true creates the user record and responds
success=true with elevated privilege exactly when no users existed beforehand
(standard privilege otherwise); if the email is already registered it responds
success=false and leaves the server data unchanged. -/
theorem c8_register (sd : ServerDataManager) (email password : String) (now : Int) :
    (is_user sd email = false →
      (registerStep sd email password now).1.success = true ∧
      (registerStep sd email password now).1.level =
        some (if get_user_count sd = 0 then PrivilegeLevel.Admin else PrivilegeLevel.User) ∧
      (registerStep sd email password now).2.users = sd.users ++
        [(email, ⟨email, password,
          if get_user_count sd = 0 then PrivilegeLevel.Admin else PrivilegeLevel.User⟩)]) ∧
    (is_user sd email = true →
      (registerStep sd email password now).1.success = false ∧
      (registerStep sd email password now).2 = sd) := by
  constructor
  · intro hnot
    have hnot2 : (dictGet email sd.users).isSome = false := by simpa [is_user] using hnot
    refine ⟨?_, ?_, ?_⟩ <;>
      simp [registerStep, add_user, add_log, is_user, hnot2,
        dictInsert_of_absent email _ _ hnot2]
  · intro hyes
    constructor <;> simp [registerStep, hyes]

/-- Witness for C8: the first registration on an empty store yields elevated
privilege; re-registering the same email fails and changes nothing. -/
theorem c8_witness :
    ((registerStep ⟨[], [], []⟩ "admin@example.com" "pw" 0).1.success = true ∧
      (registerStep ⟨[], [], []⟩ "admin@example.com" "pw" 0).1.level =
        some (if get_user_count ⟨[], [], []⟩ = 0 then PrivilegeLevel.Admin
          else PrivilegeLevel.User) ∧
      (registerStep ⟨[], [], []⟩ "admin@example.com" "pw" 0).2.users =
        ([] : List (String × UserData)) ++ [("admin@example.com",
          ⟨"admin@example.com", "pw",
            if get_user_count ⟨[], [], []⟩ = 0 then PrivilegeLevel.Admin
            else PrivilegeLevel.User⟩)]) ∧
    ((registerStep ⟨[("a@b", ⟨"a@b", "x", PrivilegeLevel.Admin⟩)], [], []⟩ "a@b" "y" 1).1.success
        = false ∧
      (registerStep ⟨[("a@b", ⟨"a@b", "x", PrivilegeLevel.Admin⟩)], [], []⟩ "a@b" "y" 1).2 =
        ⟨[("a@b", ⟨"a@b", "x", PrivilegeLevel.Admin⟩)], [], []⟩) :=
  ⟨(c8_register ⟨[], [], []⟩ "admin@example.com" "pw" 0).1 (by decide),
   (c8_register ⟨[("a@b", ⟨"a@b", "x", PrivilegeLevel.Admin⟩)], [], []⟩ "a@b" "y" 1).2
     (by decide)⟩

/-! ## Connection registry (src/connection.py lines 100-241) -/

/-- The registry state of `ConnectionHandler`: the nested ip → port →
connection map and the connection list; registry entries are identified by a
numeric token standing for the `ConnectionData` object. -/
structure ConnectionHandlerState where
  connection_map : List (String × List (String × Nat)) := []
  connections : List Nat := []
  deriving DecidableEq

/-- `ConnectionHandler.add_connection` (src/connection.py lines 229-241),
restricted to its registry effect.  Note line 240 assigns a fresh singleton
inner dict: `self.connection_map[str(ip)] = {str(port): connection_data}`. -/
def add_connection (h : ConnectionHandlerState) (ip port : String) (c : Nat) :
    ConnectionHandlerState :=
  { h with
      connections := h.connections ++ [c]
      connection_map := dictInsert ip [(port, c)] h.connection_map }

/-- `ConnectionHandler.is_connected` (src/connection.py lines 108-109). -/
def is_connected (h : ConnectionHandlerState) (ip port : String) : Bool :=
  match dictGet ip h.connection_map with
  | none => false
  | some ports => (dictGet port ports).isSome

/-- `ConnectionHandler.get_connection` (src/connection.py lines 103-106). -/
def get_connection (h : ConnectionHandlerState) (ip port : String) : Option Nat :=
  if is_connected h ip port = false then none
  else
    match dictGet ip h.connection_map with
    | none => none
    | some ports => dictGet port ports

/-- C5 evaluated at the failing input: after registering ("10.0.0.1", "4000")
and then ("10.0.0.1", "4001"), the first connection is no longer retrievable —
`add_connection` replaces the whole inner dict for the ip instead of inserting
into it, so only the most recent port per address survives.  This contradicts
the claim that both remain retrievable. -/
theorem c5_add_connection_clobbers :
    get_connection (add_connection (add_connection ⟨[], []⟩ "10.0.0.1" "4000" 0)
      "10.0.0.1" "4001" 1) "10.0.0.1" "4000" = none ∧
    get_connection (add_connection (add_connection ⟨[], []⟩ "10.0.0.1" "4000" 0)
      "10.0.0.1" "4001" 1) "10.0.0.1" "4001" = some 1 ∧
    is_connected (add_connection (add_connection ⟨[], []⟩ "10.0.0.1" "4000" 0)
      "10.0.0.1" "4001" 1) "10.0.0.1" "4000" = false := by
  decide

/-! ## Blocking receive (src/connection.py lines 69-79) -/

/-- The observable outcome of `conn.connection.input_buffer.get(timeout=timeout)`:
either an element is taken from the queue (a ciphertext frame or the `None`
shutdown sentinel), or the timeout elapses with the queue still empty, which
makes `Queue.get` raise `queue.Empty`. -/
inductive QueueGetResult where
  | item (b : Option (List Nat))
  | timedOut
  deriving DecidableEq

/-- The exceptions `get_message_raw` can propagate: `queue.Empty` from the
timed-out `Queue.get`, and `ValueError` from `decrypt` on bad padding. -/
inductive RecvError where
  | queueEmpty
  | valueError
  deriving DecidableEq

/-- `ConnectionHandler.get_message_raw` (src/connection.py lines 69-79) for an
established connection: take from the inbound queue, return `none` on the
sentinel, decrypt otherwise.  Exceptions propagate — nothing is caught. -/
def get_message_raw {G : Type} (aesD : List Nat → List Nat → List Nat)
    (st : NetworkEncryption G) (r : QueueGetResult) :
    Except RecvError (Option (List Nat)) :=
  match r with
  | .timedOut => .error .queueEmpty
  | .item none => .ok none
  | .item (some b) =>
    match decrypt aesD st b with
    | some m => .ok (some m)
    | none => .error .valueError

/-- C6 (amended): the blocking receive returns an absent result (without
raising) when the shutdown sentinel is observed; but when a timeout elapses
with no frame available it raises `queue.Empty` instead of returning an absent
result — the exception is not caught anywhere in `get_message_raw`. -/
theorem c6_receive_sentinel_and_timeout {G : Type}
    (aesD : List Nat → List Nat → List Nat) (st : NetworkEncryption G) :
    get_message_raw aesD st (QueueGetResult.item none) = Except.ok none ∧
    get_message_raw aesD st QueueGetResult.timedOut = Except.error RecvError.queueEmpty :=
  ⟨rfl, rfl⟩

/-- Counterexample to C6 as stated: on timeout the call does not return the
absent result — it raises `queue.Empty`. -/
theorem c6_counterexample :
    ¬(get_message_raw (fun _ b => b)
      (⟨false, none, none, none, none⟩ : NetworkEncryption Unit)
      QueueGetResult.timedOut = Except.ok none) := by
  simp [get_message_raw]

/-! ## Idle-state dispatch (src/server/server_state.py lines 432-488) -/

/-- The JSON object carried by an inbound envelope, restricted to the fields
the six request schemas read: each field is present with a well-typed value or
absent.  An envelope whose `action` is `none` also covers non-object or
invalid JSON (every trial validation fails on it). -/
structure Envelope where
  action : Option String := none
  register_user : Option Bool := none
  email : Option String := none
  password : Option String := none
  user_email : Option String := none
  files : Option (List String) := none
  deriving DecidableEq

/-- `UploadStart.model_validate_json` success (src/shared/data.py lines 65-66). -/
def parseUploadStart (e : Envelope) : Option Unit :=
  if e.action = some "upload_start" then some () else none

/-- `ViewFilesRequest.model_validate_json` success (src/shared/data.py lines 85-87). -/
def parseViewFilesRequest (e : Envelope) : Option String :=
  match e.action, e.user_email with
  | some "view_files_request", some u => some u
  | _, _ => none

/-- `LoginRequest.model_validate_json` success (src/shared/data.py lines 47-51). -/
def parseLoginRequest (e : Envelope) : Option (Bool × String × String) :=
  match e.action, e.register_user, e.email, e.password with
  | some "login", some r, some em, some pw => some (r, em, pw)
  | _, _, _, _ => none

/-- `LogoutRequest.model_validate_json` success (src/shared/data.py lines 61-62). -/
def parseLogoutRequest (e : Envelope) : Option Unit :=
  match e.action with
  | some "logout" => some ()
  | _ => none

/-- `RemoveFilesRequest.model_validate_json` success (src/shared/data.py lines 97-100). -/
def parseRemoveFilesRequest (e : Envelope) : Option (String × List String) :=
  match e.action, e.user_email, e.files with
  | some "remove_files", some u, some fs => some (u, fs)
  | _, _, _ => none

/-- `ViewAdminDataRequest.model_validate_json` success (src/shared/data.py lines 113-114). -/
def parseViewAdminDataRequest (e : Envelope) : Option Unit :=
  match e.action with
  | some "view_admin_data_request" => some ()
  | _ => none

/-- The successor state `Idle.run` enqueues. -/
inductive ServerSuccessor where
  | upload
  | viewFiles (user_email : String)
  | login (register : Bool) (email password : String)
  | logout
  | removeFiles (user_email : String) (files : List String)
  | viewAdminData
  deriving DecidableEq

/-- `Idle.run` (src/server/server_state.py lines 432-488): sequential
trial-validation against each schema, first success wins; `none` when every
validation fails (log and stay Idle). -/
def idleDispatch (e : Envelope) : Option ServerSuccessor :=
  match parseUploadStart e with
  | some _ => some .upload
  | none =>
    match parseViewFilesRequest e with
    | some u => some (.viewFiles u)
    | none =>
      match parseLoginRequest e with
      | some (r, em, pw) => some (.login r em pw)
      | none =>
        match parseLogoutRequest e with
        | some _ => some .logout
        | none =>
          match parseRemoveFilesRequest e with
          | some (u, fs) => some (.removeFiles u fs)
          | none =>
            match parseViewAdminDataRequest e with
            | some _ => some .viewAdminData
            | none => none

/-- Modelled from the spec: dispatch by a single inspection of the envelope's
discriminator field, then one decode into the matching shape (spec §4.5 step 2
and §9 "Trial-parse dispatch in Idle"). -/
def dispatchByDiscriminator (e : Envelope) : Option ServerSuccessor :=
  match e.action with
  | some "upload_start" => (parseUploadStart e).map (fun _ => .upload)
  | some "view_files_request" => (parseViewFilesRequest e).map .viewFiles
  | some "login" => (parseLoginRequest e).map (fun q => .login q.1 q.2.1 q.2.2)
  | some "logout" => (parseLogoutRequest e).map (fun _ => .logout)
  | some "remove_files" => (parseRemoveFilesRequest e).map (fun q => .removeFiles q.1 q.2)
  | some "view_admin_data_request" =>
    (parseViewAdminDataRequest e).map (fun _ => .viewAdminData)
  | _ => none

theorem parseUploadStart_none (e : Envelope) (h : e.action ≠ some "upload_start") :
    parseUploadStart e = none := by
  unfold parseUploadStart
  rw [if_neg h]

theorem parseViewFilesRequest_none (e : Envelope)
    (h : e.action ≠ some "view_files_request") : parseViewFilesRequest e = none := by
  unfold parseViewFilesRequest
  split <;> simp_all

theorem parseLoginRequest_none (e : Envelope) (h : e.action ≠ some "login") :
    parseLoginRequest e = none := by
  unfold parseLoginRequest
  split <;> simp_all

theorem parseLogoutRequest_none (e : Envelope) (h : e.action ≠ some "logout") :
    parseLogoutRequest e = none := by
  unfold parseLogoutRequest
  split <;> simp_all

theorem parseRemoveFilesRequest_none (e : Envelope) (h : e.action ≠ some "remove_files") :
    parseRemoveFilesRequest e = none := by
  unfold parseRemoveFilesRequest
  split <;> simp_all

theorem parseViewAdminDataRequest_none (e : Envelope)
    (h : e.action ≠ some "view_admin_data_request") :
    parseViewAdminDataRequest e = none := by
  unfold parseViewAdminDataRequest
  split <;> simp_all

theorem idleDispatch_unknown (e : Envelope) (a : String) (ha : e.action = some a)
    (h1 : a ≠ "upload_start") (h2 : a ≠ "view_files_request") (h3 : a ≠ "login")
    (h4 : a ≠ "logout") (h5 : a ≠ "remove_files") (h6 : a ≠ "view_admin_data_request") :
    idleDispatch e = none := by
  unfold idleDispatch
  rw [parseUploadStart_none e (by rw [ha]; simp [h1]),
    parseViewFilesRequest_none e (by rw [ha]; simp [h2]),
    parseLoginRequest_none e (by rw [ha]; simp [h3]),
    parseLogoutRequest_none e (by rw [ha]; simp [h4]),
    parseRemoveFilesRequest_none e (by rw [ha]; simp [h5]),
    parseViewAdminDataRequest_none e (by rw [ha]; simp [h6])]

theorem idleDispatch_action_absent (e : Envelope) (h : e.action = none) :
    idleDispatch e = none := by
  unfold idleDispatch
  rw [parseUploadStart_none e (by rw [h]; simp),
    parseViewFilesRequest_none e (by rw [h]; simp),
    parseLoginRequest_none e (by rw [h]; simp),
    parseLogoutRequest_none e (by rw [h]; simp),
    parseRemoveFilesRequest_none e (by rw [h]; simp),
    parseViewAdminDataRequest_none e (by rw [h]; simp)]

theorem idleDispatch_eq_disc (e : Envelope) : idleDispatch e = dispatchByDiscriminator e := by
  obtain ⟨act, reg, em, pw, ue, fs⟩ := e
  rcases act with _ | a
  · rw [idleDispatch_action_absent _ rfl]
    rfl
  · by_cases h1 : a = "upload_start"
    · subst h1
      simp [idleDispatch, dispatchByDiscriminator, parseUploadStart, parseViewFilesRequest,
        parseLoginRequest, parseLogoutRequest, parseRemoveFilesRequest,
        parseViewAdminDataRequest]
    · by_cases h2 : a = "view_files_request"
      · subst h2
        rcases ue with _ | u <;>
          simp [idleDispatch, dispatchByDiscriminator, parseUploadStart,
            parseViewFilesRequest, parseLoginRequest, parseLogoutRequest,
            parseRemoveFilesRequest, parseViewAdminDataRequest]
      · by_cases h3 : a = "login"
        · subst h3
          rcases reg with _ | r <;> rcases em with _ | em2 <;> rcases pw with _ | pw2 <;>
            simp [idleDispatch, dispatchByDiscriminator, parseUploadStart,
              parseViewFilesRequest, parseLoginRequest, parseLogoutRequest,
              parseRemoveFilesRequest, parseViewAdminDataRequest]
        · by_cases h4 : a = "logout"
          · subst h4
            simp [idleDispatch, dispatchByDiscriminator, parseUploadStart,
              parseViewFilesRequest, parseLoginRequest, parseLogoutRequest,
              parseRemoveFilesRequest, parseViewAdminDataRequest]
          · by_cases h5 : a = "remove_files"
            · subst h5
              rcases ue with _ | u <;> rcases fs with _ | fs2 <;>
                simp [idleDispatch, dispatchByDiscriminator, parseUploadStart,
                  parseViewFilesRequest, parseLoginRequest, parseLogoutRequest,
                  parseRemoveFilesRequest, parseViewAdminDataRequest]
            · by_cases h6 : a = "view_admin_data_request"
              · subst h6
                simp [idleDispatch, dispatchByDiscriminator, parseUploadStart,
                  parseViewFilesRequest, parseLoginRequest, parseLogoutRequest,
                  parseRemoveFilesRequest, parseViewAdminDataRequest]
              · rw [idleDispatch_unknown _ a rfl h1 h2 h3 h4 h5 h6]
                unfold dispatchByDiscriminator
                split <;> simp_all

/-- C9: the successor `Idle.run` enqueues is determined by the envelope's
discriminator alone — the sequential trial-parse equals discriminator-first
dispatch (the six schemas are pairwise disjoint on the `action` literal) — and
an envelope whose discriminator matches no known schema (or that has none)
enqueues nothing, leaving the machine in Idle. -/
theorem c9_idle_dispatch (e : Envelope) :
    idleDispatch e = dispatchByDiscriminator e ∧
    (∀ a, e.action = some a →
      a ∉ (["upload_start", "view_files_request", "login", "logout", "remove_files",
        "view_admin_data_request"] : List String) →
      idleDispatch e = none) ∧
    (e.action = none → idleDispatch e = none) := by
  refine ⟨idleDispatch_eq_disc e, ?_, fun h => idleDispatch_action_absent e h⟩
  intro a ha hnot
  simp only [List.mem_cons, List.not_mem_nil, or_false, not_or] at hnot
  obtain ⟨h1, h2, h3, h4, h5, h6⟩ := hnot
  exact idleDispatch_unknown e a ha h1 h2 h3 h4 h5 h6

/-- Witness for C9: a heartbeat envelope matches no schema and enqueues
nothing; the trial-parse and discriminator-first dispatch agree on it. -/
theorem c9_witness :
    idleDispatch ⟨some "heartbeat", none, none, none, none, none⟩ =
      dispatchByDiscriminator ⟨some "heartbeat", none, none, none, none, none⟩ ∧
    idleDispatch ⟨some "heartbeat", none, none, none, none, none⟩ = none :=
  ⟨(c9_idle_dispatch ⟨some "heartbeat", none, none, none, none, none⟩).1,
   (c9_idle_dispatch ⟨some "heartbeat", none, none, none, none, none⟩).2.1 "heartbeat" rfl
     (by decide)⟩

end FtpApp
